import Mathlib

/-!
Verification of the twitter-likes-to-art acquisition pipeline.

Shallow embedding of the Python sources:
  * `src/download_media.py`  — host allowlist, extension inference, the
    download engine `download_all` (dedup by `(tweet_id, index)`, skip-existing),
  * `src/run.py`             — the resolution cascade in `main` (twikit →
    paid API → gallery-dl) and the manifest merge,
  * `src/fetch_likes_api.py` / `src/resolve_tweet_ids.py` — the HTTP-429
    retry loop,
  * `src/resolve_via_twikit.py` — `_resolve_batch` batching and backoff,
  * `src/resolve_via_scrape.py` — `_collect_manifest_entries` filename scan.

External effects (network fetches, the filesystem staging directory, the
gallery-dl subprocess, API backends) are passed in as explicit oracles /
state, so every definition is executable.
-/

namespace TwitterLikes

/-- Decimal digit character, as produced by Python `str(int)`. -/
def digitChar : Nat → Char
  | 0 => '0' | 1 => '1' | 2 => '2' | 3 => '3' | 4 => '4'
  | 5 => '5' | 6 => '6' | 7 => '7' | 8 => '8' | _ => '9'

/-- Decimal digit expansion with explicit fuel (structural recursion, so
that it evaluates by kernel reduction; the fuel is always sufficient since
`n / 10 < n`). -/
def natDigitsCore : Nat → Nat → List Char
  | 0, _ => []
  | fuel + 1, n =>
    if n < 10 then [digitChar n]
    else natDigitsCore fuel (n / 10) ++ [digitChar (n % 10)]

/-- Decimal digit list of a natural number (Python `str(n)` for `n ≥ 0`). -/
def natDigits (n : Nat) : List Char := natDigitsCore (n + 1) n

/-- The fuel is irrelevant as long as it exceeds the number. -/
lemma natDigitsCore_fuel : ∀ f1 f2 n, n < f1 → n < f2 →
    natDigitsCore f1 n = natDigitsCore f2 n := by
  intro f1
  induction f1 with
  | zero => omega
  | succ f1 ih =>
    intro f2 n h1 h2
    cases f2 with
    | zero => omega
    | succ f2 =>
      simp only [natDigitsCore]
      split_ifs with h10
      · rfl
      · have hdiv : n / 10 < n := Nat.div_lt_self (by omega) (by norm_num)
        rw [ih f2 (n / 10) (by omega) (by omega)]

/-- The recurrence `natDigits` satisfies. -/
lemma natDigits_eq (n : Nat) :
    natDigits n = if n < 10 then [digitChar n]
      else natDigits (n / 10) ++ [digitChar (n % 10)] := by
  unfold natDigits
  rw [show natDigitsCore (n + 1) n
      = if n < 10 then [digitChar n] else natDigitsCore n (n / 10) ++ [digitChar (n % 10)]
    from rfl]
  split_ifs with h10
  · rfl
  · have hdiv : n / 10 < n := Nat.div_lt_self (by omega) (by norm_num)
    rw [natDigitsCore_fuel n (n / 10 + 1) (n / 10) (by omega) (by omega)]

/-- Python `str(n)` for a natural number. -/
def natToString (n : Nat) : String := ⟨natDigits n⟩

/-- A media URI after `urllib.parse.urlparse`: scheme, hostname (already
lowercased by urlparse, `none` when absent) and path component. -/
structure Url where
  scheme : String
  hostname : Option String
  path : String
deriving DecidableEq, Repr

/-- One parsed like-record (the dicts produced by `parse_archive.py` /
the resolvers): `tweet_id`, `username`, `date`, `media_urls`, `text`,
`like_source`. -/
structure Record where
  tweet_id : String
  username : String
  date : String
  text : String
  like_source : String
  media_urls : List Url
deriving DecidableEq, Repr

/-- One manifest entry written by the pipeline:
`{ tweet_id, index, path, username, date, text, like_source }`. -/
structure ManifestEntry where
  tweet_id : String
  index : Int
  path : String
  username : String
  date : String
  text : String
  like_source : String
deriving DecidableEq, Repr

/-- The dedup key of a manifest entry: `(item_id, media_index)`. -/
def mkey (e : ManifestEntry) : String × Int := (e.tweet_id, e.index)

/-- Keys of a list of manifest entries. -/
def keysOf (l : List ManifestEntry) : List (String × Int) := l.map mkey

/-- Python `s or default` on strings: the default replaces the empty string. -/
def orDefault (s d : String) : String := if s = "" then d else s

/-! ## src/download_media.py -/

/-- `ALLOWED_HOSTS`: the known X/Twitter CDN hosts. -/
def ALLOWED_HOSTS : List String := ["pbs.twimg.com", "ton.twimg.com", "video.twimg.com"]

/-- `_is_allowed_url`: scheme must be http/https and the hostname must be in
`ALLOWED_HOSTS` (a missing hostname is rejected). -/
def isAllowedUrl (u : Url) : Bool :=
  if u.scheme ≠ "http" ∧ u.scheme ≠ "https" then false
  else
    match u.hostname with
    | some h => ALLOWED_HOSTS.contains h
    | none => false

/-- Characters of `s` after its last `'.'`; `none` when `s` has no dot
(Python `s.rsplit(".", 1)[-1]` guarded by `"." in s`). -/
def afterLastDot : List Char → Option (List Char)
  | [] => none
  | c :: cs =>
    match afterLastDot cs with
    | some r => some r
    | none => if c = '.' then some cs else none

/-- `extension_from_url`: extension from the URL path suffix when recognized
(`jpeg` normalizes to `jpg`), otherwise the default `"jpg"`. -/
def extensionFromUrl (u : Url) (dflt : String := "jpg") : String :=
  match afterLastDot u.path.data with
  | none => dflt
  | some extChars =>
    let ext : String := ⟨extChars.map Char.toLower⟩
    if ext = "jpeg" then "jpg"
    else if ext ∈ (["jpg", "png", "gif", "webp"] : List String) then ext
    else dflt

/-- `safe_filename_tweet_index`: `f"{tweet_id}_{index}.{ext}"`. -/
def safeFilenameTweetIndex (tweetId : String) (index : Nat) (ext : String) : String :=
  tweetId ++ "_" ++ natToString index ++ "." ++ ext

/-- One unit of work inside `download_all`: a record together with one of its
media URLs and that URL's position (`enumerate`). -/
structure Job where
  record : Record
  idx : Nat
  url : Url
deriving DecidableEq, Repr

/-- The `(tweet_id, index)` dedup key of a job. -/
def jobKey (j : Job) : String × Int := (j.record.tweet_id, (j.idx : Int))

/-- The staging filename `download_all` derives for a job. -/
def jobName (j : Job) : String :=
  safeFilenameTweetIndex j.record.tweet_id j.idx (extensionFromUrl j.url)

/-- The manifest entry `download_all` builds for a job (metadata defaults
mirror `rec.get(...) or ...` in the source). -/
def jobEntry (outputDir : String) (j : Job) : ManifestEntry :=
  { tweet_id := j.record.tweet_id
    index := (j.idx : Int)
    path := outputDir ++ "/" ++ jobName j
    username := orDefault j.record.username "unknown"
    date := orDefault j.record.date ""
    text := orDefault j.record.text ""
    like_source := orDefault j.record.like_source "" }

/-- Outcome of the network fetch inside `download_one` for an allowlisted
URL:
  * `success`   — the body streams to completion; the staged file is whole
    and `download_one` returns True;
  * `failEarly` — `sess.get`, `raise_for_status` or the `mkdir` raises
    before `open(dest_path, "wb")`; no file appears and False is returned;
  * `failMid`   — an exception after the file is opened (`iter_content` /
    `f.write` mid-stream); False is returned but a **partial file remains
    at `dest_path`**, which `dest.is_file()` later reports as present. -/
inductive FetchResult where
  | success
  | failEarly
  | failMid
deriving DecidableEq, Repr

/-- State of one `download_all` run: the `seen` dedup set, the staging
directory contents (filenames, partial files included — `is_file` cannot
tell them apart), the manifest entries built so far, and the log of network
fetch attempts (key and URL of every `sess.get` issued). -/
structure DlState where
  seen : List (String × Int)
  files : List String
  entries : List ManifestEntry
  fetches : List ((String × Int) × Url)
deriving DecidableEq, Repr

/-- The body of `download_all`'s inner loop for one `(index, url)` pair:
dedup via `seen`, skip-existing, then `download_one` (allowlist check, then
the network fetch whose outcome the oracle `fetch` decides; both `success`
and `failMid` leave a file at the deterministic path, only `success`
appends the manifest entry). -/
def dlStep (skipExisting : Bool) (fetch : Url → FetchResult) (outputDir : String)
    (s : DlState) (j : Job) : DlState :=
  let key := jobKey j
  if s.seen.contains key then s
  else
    let seen' := key :: s.seen
    let name := jobName j
    let e := jobEntry outputDir j
    if skipExisting ∧ s.files.contains name then
      { s with seen := seen', entries := s.entries ++ [e] }
    else if isAllowedUrl j.url then
      match fetch j.url with
      | .success =>
        { seen := seen', files := name :: s.files,
          entries := s.entries ++ [e], fetches := s.fetches ++ [(key, j.url)] }
      | .failEarly =>
        { s with seen := seen', fetches := s.fetches ++ [(key, j.url)] }
      | .failMid =>
        { seen := seen', files := name :: s.files,
          entries := s.entries, fetches := s.fetches ++ [(key, j.url)] }
    else { s with seen := seen' }

/-- Jobs of one record: skipped entirely when `tweet_id` is falsy or it has
no media URLs, else one job per `enumerate(urls)` pair. -/
def jobsOfRecord (r : Record) : List Job :=
  if r.tweet_id = "" ∨ r.media_urls = [] then []
  else r.media_urls.enum.map fun p => { record := r, idx := p.1, url := p.2 }

/-- All jobs of a record list, in input order. -/
def jobsOf (records : List Record) : List Job :=
  records.flatMap jobsOfRecord

/-- Fold of `dlStep` over a job list. -/
def dlRun (skipExisting : Bool) (fetch : Url → FetchResult) (outputDir : String)
    (jobs : List Job) (s : DlState) : DlState :=
  jobs.foldl (dlStep skipExisting fetch outputDir) s

/-- `download_all(records, output_dir, ..., skip_existing)`: the nested loop
over records and their media URLs, starting from staging contents `files0`.
The progress printing and the manifest-file write (a serialization of
`.entries`) are not modelled. -/
def downloadAll (skipExisting : Bool) (fetch : Url → FetchResult) (outputDir : String)
    (records : List Record) (files0 : List String) : DlState :=
  dlRun skipExisting fetch outputDir (jobsOf records)
    { seen := [], files := files0, entries := [], fetches := [] }

/-! ## src/run.py — dedup, partition, resolution cascade, manifest merge

The three resolver calls are oracles: `s1` is the outcome of
`resolve_tweets` (twikit), `s2` of the paid-API fallback
`fetch_tweets_by_ids` given the offered ids, `scrape` of
`resolve_and_download` given the records handed to gallery-dl.  `.error`
stands for the exception run.py catches (strategies 1–2) or, for `scrape`,
for the re-raised `FileNotFoundError` of a missing gallery-dl executable
(the only exception `resolve_and_download` lets escape). -/

/-- The tweet-id dedup pass at the top of `run.py` `main` (first occurrence
wins, records with a falsy `tweet_id` are dropped). -/
def dedupeByTid (records : List Record) : List Record :=
  (records.foldl
    (fun (acc : List String × List Record) r =>
      if r.tweet_id ≠ "" ∧ ¬ acc.1.contains r.tweet_id
      then (r.tweet_id :: acc.1, acc.2 ++ [r]) else acc)
    ([], [])).2

/-- Observable outcome of run.py's step-2 resolution cascade: the records
appended to `has_media`, the ids offered to / resolved by each strategy
(`resolved` is `[]` for a strategy that raised, `offered2 = none` when the
paid-API fallback was never entered), and the records left for gallery-dl. -/
structure CascadeResult where
  hasMediaExtra : List Record
  offered1 : List String
  resolved1 : List String
  offered2 : Option (List String)
  resolved2 : List String
  unresolved : List Record
deriving DecidableEq, Repr

/-- Ids of the records handed to the gallery-dl stage (strategy 3). -/
def CascadeResult.offered3 (c : CascadeResult) : List String :=
  c.unresolved.map Record.tweet_id

/-- run.py lines 160–197: try twikit on all id-only records; on its
exception fall back to the paid API on the (unchanged) unresolved list; each
success filters the unresolved list by the returned resolved ids.
(run.py unpacks the paid-API result as a `(records, ids)` pair, although
`resolve_tweet_ids.fetch_tweets_by_ids` returns a flat record list — the
resulting `ValueError` lands in the same except-branch as any other
strategy-2 failure, so `s2` returning `.error` covers it; a successful
`.ok` pair is the interface run.py is written against.) -/
def runCascade (idOnly : List Record)
    (s1 : Except Unit (List Record × List String))
    (s2 : List String → Except Unit (List Record × List String)) : CascadeResult :=
  let uids := idOnly.map Record.tweet_id
  match s1 with
  | .ok (recs, ids) =>
    { hasMediaExtra := recs
      offered1 := uids
      resolved1 := ids
      offered2 := none
      resolved2 := []
      unresolved := idOnly.filter fun r => !ids.contains r.tweet_id }
  | .error _ =>
    match s2 uids with
    | .ok (recs2, ids2) =>
      { hasMediaExtra := recs2
        offered1 := uids
        resolved1 := []
        offered2 := some uids
        resolved2 := ids2
        unresolved := idOnly.filter fun r => !ids2.contains r.tweet_id }
    | .error _ =>
      { hasMediaExtra := []
        offered1 := uids
        resolved1 := []
        offered2 := some uids
        resolved2 := []
        unresolved := idOnly }

/-- run.py lines 199–234: the manifest accumulation `all_entries` — the
gallery-dl entry set followed by the CDN `download_all` entry set, by
successive `extend` calls. -/
def mergeManifests (entrySets : List (List ManifestEntry)) : List ManifestEntry :=
  entrySets.flatten

/-- run.py `main`, steps 1–3 (dedup, partition, cascade, gallery-dl,
CDN download, manifest): returns the merged manifest, or `.error` when the
uncaught gallery-dl `FileNotFoundError` aborts the run.  `--limit` is at its
default (no truncation); renaming/filtering (steps 4–5) are downstream of
the manifest and not modelled. -/
def runPipeline (records0 : List Record)
    (s1 : Except Unit (List Record × List String))
    (s2 : List String → Except Unit (List Record × List String))
    (scrape : List Record → Except Unit (List ManifestEntry))
    (fetch : Url → FetchResult) (outputDir : String) (files0 : List String) :
    Except Unit (List ManifestEntry) :=
  let unique := dedupeByTid records0
  let idOnly := unique.filter fun r => r.media_urls.isEmpty
  let hasMedia0 := unique.filter fun r => !r.media_urls.isEmpty
  if idOnly.isEmpty then
    .ok (mergeManifests [[], (downloadAll true fetch outputDir hasMedia0 files0).entries])
  else
    let c := runCascade idOnly s1 s2
    let hasMedia := hasMedia0 ++ c.hasMediaExtra
    match (if c.unresolved.isEmpty then Except.ok [] else scrape c.unresolved) with
    | .error e => .error e
    | .ok scrapeEntries =>
      .ok (mergeManifests
        [scrapeEntries, (downloadAll true fetch outputDir hasMedia files0).entries])

/-! ## src/fetch_likes_api.py lines 138–155 / src/resolve_tweet_ids.py
lines 41–50 — the HTTP-429 retry loop -/

/-- An HTTP response as the retry loop sees it: status code and the parsed
`Retry-After` header (`none` when the header is absent). -/
structure ApiResponse where
  status : Nat
  retryAfter : Option Nat
deriving DecidableEq, Repr

/-- `int(r.headers.get("Retry-After", 60))`. -/
def retryAfterSecs (r : ApiResponse) : Nat := r.retryAfter.getD 60

/-- `for _attempt in range(max_retries): r = session.get(...); if 429:
sleep; continue; break` — `respond i` is the response to the `i`-th send,
`fuel` the attempts still allowed by the range after the current one.
Returns the final response and the list of sleep durations performed. -/
def runAttempts (respond : Nat → ApiResponse) :
    Nat → Nat → List Nat → ApiResponse × List Nat
  | i, fuel, sleeps =>
    let r := respond i
    if r.status = 429 then
      let sleeps' := sleeps ++ [retryAfterSecs r]
      match fuel with
      | 0 => (r, sleeps')
      | fuel' + 1 => runAttempts respond (i + 1) fuel' sleeps'
    else (r, sleeps)

/-- `requests.Response.raise_for_status`: 4xx/5xx raise `HTTPError`. -/
def raiseForStatus (r : ApiResponse) : Except Nat ApiResponse :=
  if 400 ≤ r.status ∧ r.status < 600 then .error r.status else .ok r

/-- The whole guarded send: the `range(5)` attempt loop followed by
`r.raise_for_status()`.  Yields the call outcome and the sleeps performed. -/
def sendWithRetry (respond : Nat → ApiResponse) : Except Nat ApiResponse × List Nat :=
  let (r, sleeps) := runAttempts respond 0 4 []
  (raiseForStatus r, sleeps)

/-! ## src/resolve_via_twikit.py — `_resolve_batch` -/

/-- Outcome of one `client.get_tweets_by_ids(batch)` call as `_resolve_batch`
consumes it: on success, the per-tweet results of `_tweet_to_record` (`none`
for null tweets and tweets without photo media); on an exception, whether the
message mentions a rate limit (`"rate"`/`"429"`). -/
inductive BatchOutcome where
  | ok (tweets : List (Option Record))
  | err (rateLimited : Bool)
deriving DecidableEq, Repr

/-- Whether the batch call succeeded. -/
def BatchOutcome.isOk : BatchOutcome → Bool
  | .ok _ => true
  | .err _ => false

/-- The chunk start offsets `range(0, total, batch_size)` (requires
`batch_size > 0`, as in Python). -/
def chunkStarts (total batchSize : Nat) : List Nat :=
  (List.range ((total + batchSize - 1) / batchSize)).map (· * batchSize)

/-- The Python slice `tweet_ids[i : i + batch_size]`. -/
def batchAt (ids : List String) (batchSize i : Nat) : List String :=
  (ids.drop i).take batchSize

/-- Observable state of `_resolve_batch`: records built, `resolved` ids,
the consecutive-failure streak, the chunk offsets actually sent to the API,
and the rate-limit backoff sleeps performed. -/
structure TwikitState where
  records : List Record
  resolved : List String
  failedStreak : Nat
  calls : List Nat
  sleeps : List Nat
deriving DecidableEq, Repr

/-- The `for i in range(0, total, batch_size)` loop of `_resolve_batch`,
driven by the remaining chunk offsets: on success extend `resolved` with the
whole batch and reset the streak; on an exception bump the streak, stop hard
after 3 consecutive failures, and on a rate-limit message sleep
`min(60 * 2 ** failed_streak, 900)` and move on.  (The inter-batch politeness
`sleep(delay)` and progress prints are not modelled.) -/
def twikitLoop (call : Nat → BatchOutcome) (ids : List String) (batchSize : Nat) :
    List Nat → TwikitState → TwikitState
  | [], s => s
  | i :: rest, s =>
    let batch := batchAt ids batchSize i
    match call i with
    | .ok tweets =>
      twikitLoop call ids batchSize rest
        { s with
          calls := s.calls ++ [i]
          resolved := s.resolved ++ batch
          failedStreak := 0
          records := s.records ++ tweets.filterMap id }
    | .err rateLimited =>
      let streak := s.failedStreak + 1
      let s' := { s with calls := s.calls ++ [i], failedStreak := streak }
      if 3 ≤ streak then s'
      else if rateLimited then
        twikitLoop call ids batchSize rest
          { s' with sleeps := s'.sleeps ++ [min (60 * 2 ^ streak) 900] }
      else twikitLoop call ids batchSize rest s'

/-- `_resolve_batch(client, tweet_ids, batch_size=20)`, with the API call
abstracted by `call`. -/
def resolveBatch (call : Nat → BatchOutcome) (ids : List String)
    (batchSize : Nat := 20) : TwikitState :=
  twikitLoop call ids batchSize (chunkStarts ids.length batchSize)
    { records := [], resolved := [], failedStreak := 0, calls := [], sleeps := [] }

/-! ## src/resolve_via_scrape.py — `_collect_manifest_entries` -/

/-- `_IMAGE_EXTENSIONS`. -/
def IMAGE_EXTENSIONS : List String := [".jpg", ".jpeg", ".png", ".gif", ".webp"]

/-- Index of the last `'.'` in a character list (Python `str.rfind('.')`),
`none` when there is no dot. -/
def lastDotIdx (l : List Char) : Option Nat :=
  match l.reverse.findIdx? (· = '.') with
  | none => none
  | some k => some (l.length - 1 - k)

/-- `pathlib.PurePath.suffix` on a bare file name: `name[i:]` for the last
dot position `i` when `0 < i < len(name) - 1`, else `""`. -/
def pySuffix (name : String) : String :=
  match lastDotIdx name.data with
  | none => ""
  | some i =>
    if 0 < i ∧ i + 1 < name.data.length then ⟨name.data.drop i⟩ else ""

/-- `pathlib.PurePath.stem` on a bare file name: `name[:i]` under the same
condition, else the whole name. -/
def pyStem (name : String) : String :=
  match lastDotIdx name.data with
  | none => name
  | some i =>
    if 0 < i ∧ i + 1 < name.data.length then ⟨name.data.take i⟩ else name

/-- Python `s.rsplit("_", 1)` when it yields two parts: the text before and
after the last `'_'`; `none` when `s` has no underscore (`len(parts) != 2`). -/
def rsplitUnderscore (s : String) : Option (String × String) :=
  match s.data.reverse.findIdx? (· = '_') with
  | none => none
  | some k =>
    let i := s.data.length - 1 - k
    some (⟨s.data.take i⟩, ⟨s.data.drop (i + 1)⟩)

/-- Value of an ASCII decimal digit list. -/
def digitsVal (l : List Char) : Nat :=
  l.foldl (fun a c => a * 10 + (c.toNat - 48)) 0

/-- Python `int(s)` on the strings reaching `_collect_manifest_entries`
(no underscores possible after the rsplit): optional surrounding whitespace,
optional sign, one or more ASCII digits; anything else raises `ValueError`
(`none`). -/
def pyIntParse (s : String) : Option Int :=
  let core := (s.data.dropWhile Char.isWhitespace).reverse.dropWhile Char.isWhitespace
    |>.reverse
  let digits? : List Char → Option Nat := fun ds =>
    if ds ≠ [] ∧ ds.all Char.isDigit then some (digitsVal ds) else none
  match core with
  | '+' :: ds => (digits? ds).map Int.ofNat
  | '-' :: ds => (digits? ds).map fun n => -(n : Int)
  | ds => (digits? ds).map Int.ofNat

/-- Metadata values as the code extracts them from a gallery-dl
`{filename}.json` sidecar: the resolved author name (`"unknown"` when
missing or on a parse failure), the raw `date` string, and `content`. -/
structure ScrapeMeta where
  username : String
  rawDate : String
  content : String
deriving DecidableEq, Repr

/-- `raw_date[:10] if len(raw_date) >= 10 else raw_date`. -/
def truncDate (raw : String) : String :=
  if 10 ≤ raw.data.length then ⟨raw.data.take 10⟩ else raw

/-- The loop body of `_collect_manifest_entries` for one directory entry:
`none` for every `continue` (wrong extension, unsplittable stem,
non-numeric suffix), otherwise the manifest entry with the 1-based
gallery-dl number converted to a 0-based index, metadata from the sidecar
(`meta name`) with fallbacks from `record_by_id` (`recordById tid`). -/
def scrapeEntry? (outputDir : String) (meta : String → Option ScrapeMeta)
    (recordById : String → Option Record) (name : String) : Option ManifestEntry :=
  if ¬ (⟨(pySuffix name).data.map Char.toLower⟩ : String) ∈ IMAGE_EXTENSIONS then none
  else
    match rsplitUnderscore (pyStem name) with
    | none => none
    | some (tweetId, numStr) =>
      match pyIntParse numStr with
      | none => none
      | some num =>
        let m := (meta name).getD { username := "unknown", rawDate := "", content := "" }
        let orig := recordById tweetId
        let username :=
          if m.username = "unknown" then
            (orig.map Record.username).getD "unknown" else m.username
        let dateStr :=
          if truncDate m.rawDate = "" then
            (orig.map Record.date).getD "" else truncDate m.rawDate
        let content :=
          if m.content = "" then (orig.map Record.text).getD "" else m.content
        some
          { tweet_id := tweetId
            index := num - 1
            path := outputDir ++ "/" ++ name
            username := username
            date := dateStr
            text := content
            like_source := (orig.map Record.like_source).getD "scrape" }

/-- `_collect_manifest_entries(output_dir, record_by_id)` over the sorted
directory listing `files`: each `continue` of the loop is a `none` of
`scrapeEntry?`. -/
def collectManifestEntries (outputDir : String) (files : List String)
    (meta : String → Option ScrapeMeta) (recordById : String → Option Record) :
    List ManifestEntry :=
  files.filterMap (scrapeEntry? outputDir meta recordById)

/-! ## Lemmas about the download engine -/

/-- A predicate preserved by each fold step is preserved by the fold. -/
lemma foldl_preserve {α σ : Type} {P : σ → Prop} {f : σ → α → σ}
    (h : ∀ s a, P s → P (f s a)) : ∀ (l : List α) (s : σ), P s → P (l.foldl f s)
  | [], _, hs => hs
  | a :: l, s, hs => foldl_preserve h l (f s a) (h s a hs)

/-- The key of the entry built for a job is the job's key. -/
lemma mkey_jobEntry (d : String) (j : Job) : mkey (jobEntry d j) = jobKey j := rfl

/-- `dlStep` only ever conses the job's key onto `seen`. -/
lemma dlStep_seen_mono (skip : Bool) (fetch : Url → FetchResult) (d : String)
    (s : DlState) (j : Job) : s.seen ⊆ (dlStep skip fetch d s j).seen := by
  unfold dlStep
  dsimp only
  cases hf : fetch j.url <;> split_ifs <;> simp [List.subset_cons_of_subset]

/-- `dlStep` only ever conses the job's filename onto `files`. -/
lemma dlStep_files_mono (skip : Bool) (fetch : Url → FetchResult) (d : String)
    (s : DlState) (j : Job) : s.files ⊆ (dlStep skip fetch d s j).files := by
  unfold dlStep
  dsimp only
  cases hf : fetch j.url <;> split_ifs <;> simp [List.subset_cons_of_subset]

/-- `dlRun` never drops staged files. -/
lemma dlRun_files_mono (skip : Bool) (fetch : Url → FetchResult) (d : String)
    (jobs : List Job) (s : DlState) : s.files ⊆ (dlRun skip fetch d jobs s).files := by
  induction jobs generalizing s with
  | nil => exact fun _ h => h
  | cons j rest ih =>
    exact (dlStep_files_mono skip fetch d s j).trans (ih (dlStep skip fetch d s j))

/-- `dlRun` never forgets seen keys. -/
lemma dlRun_seen_mono (skip : Bool) (fetch : Url → FetchResult) (d : String)
    (jobs : List Job) (s : DlState) : s.seen ⊆ (dlRun skip fetch d jobs s).seen := by
  induction jobs generalizing s with
  | nil => exact fun _ h => h
  | cons j rest ih =>
    exact (dlStep_seen_mono skip fetch d s j).trans (ih (dlStep skip fetch d s j))

/-- Key uniqueness invariant of one `dlStep`: entry keys stay `Nodup` and
stay covered by `seen`. -/
lemma dlStep_inv (skip : Bool) (fetch : Url → FetchResult) (d : String)
    (s : DlState) (j : Job)
    (h : (keysOf s.entries).Nodup ∧ ∀ k ∈ keysOf s.entries, k ∈ s.seen) :
    (keysOf (dlStep skip fetch d s j).entries).Nodup ∧
      ∀ k ∈ keysOf (dlStep skip fetch d s j).entries, k ∈ (dlStep skip fetch d s j).seen := by
  obtain ⟨h1, h2⟩ := h
  unfold dlStep
  by_cases hseen : s.seen.contains (jobKey j)
  · simp only [hseen, if_true]
    exact ⟨h1, h2⟩
  · have hnot : jobKey j ∉ s.seen := by
      simpa [List.elem_iff] using hseen
    have hkeynot : jobKey j ∉ keysOf s.entries := fun hmem => hnot (h2 _ hmem)
    have happend : (keysOf (s.entries ++ [jobEntry d j])).Nodup := by
      simp only [keysOf, List.map_append, List.map_cons, List.map_nil]
      rw [List.nodup_append]
      exact ⟨h1, List.nodup_singleton _,
        by simpa [List.disjoint_singleton, keysOf, mkey_jobEntry] using hkeynot⟩
    have hcover : ∀ k ∈ keysOf (s.entries ++ [jobEntry d j]), k ∈ jobKey j :: s.seen := by
      intro k hk
      simp only [keysOf, List.map_append, List.map_cons, List.map_nil,
        List.mem_append, List.mem_singleton] at hk
      rcases hk with hk | hk
      · exact List.mem_cons_of_mem _ (h2 _ hk)
      · simp [hk, mkey_jobEntry]
    simp only [hseen, if_false, Bool.false_eq_true]
    cases hf : fetch j.url <;> split_ifs <;>
      first
        | exact ⟨happend, hcover⟩
        | exact ⟨h1, fun k hk => List.mem_cons_of_mem _ (h2 _ hk)⟩

/-- Key uniqueness invariant through a whole run. -/
lemma dlRun_inv (skip : Bool) (fetch : Url → FetchResult) (d : String)
    (jobs : List Job) (s : DlState)
    (h : (keysOf s.entries).Nodup ∧ ∀ k ∈ keysOf s.entries, k ∈ s.seen) :
    (keysOf (dlRun skip fetch d jobs s).entries).Nodup ∧
      ∀ k ∈ keysOf (dlRun skip fetch d jobs s).entries,
        k ∈ (dlRun skip fetch d jobs s).seen :=
  foldl_preserve (fun s j => dlStep_inv skip fetch d s j) jobs s h

/-- C1: for every record list fed to `download_all` in one call, the
returned manifest has at most one entry per `(item_id, media_index)` key
(its key list is duplicate-free); in particular, two records with item id
`"1"` and the same single allowed media location yield exactly one entry,
keyed `("1", 0)`. -/
theorem c1_downloadAll_at_most_one_entry_per_key :
    (∀ (skip : Bool) (fetch : Url → FetchResult) (dir : String) (records : List Record)
        (files0 : List String),
      (keysOf (downloadAll skip fetch dir records files0).entries).Nodup)
    ∧ keysOf (downloadAll true (fun _ => FetchResult.success) "downloads"
        [{ tweet_id := "1", username := "", date := "", text := "", like_source := "",
           media_urls := [{ scheme := "https", hostname := some "pbs.twimg.com",
                            path := "/a.jpg" }] },
         { tweet_id := "1", username := "", date := "", text := "", like_source := "",
           media_urls := [{ scheme := "https", hostname := some "pbs.twimg.com",
                            path := "/a.jpg" }] }] []).entries = [("1", 0)] := by
  constructor
  · intro skip fetch dir records files0
    exact (dlRun_inv skip fetch dir (jobsOf records) _ (by simp [keysOf])).1
  · decide

/-! ## Concrete sample data shared by the scenario theorems -/

/-- The manifest entry `("1", 0, pathA)` of the merge scenario. -/
def entryA1 : ManifestEntry :=
  { tweet_id := "1", index := 0, path := "pathA",
    username := "", date := "", text := "", like_source := "" }

/-- The manifest entry `("1", 0, pathB)` of the merge scenario. -/
def entryB1 : ManifestEntry :=
  { tweet_id := "1", index := 0, path := "pathB",
    username := "", date := "", text := "", like_source := "" }

/-- The manifest entry `("2", 0, pathC)` of the merge scenario. -/
def entryB2 : ManifestEntry :=
  { tweet_id := "2", index := 0, path := "pathC",
    username := "", date := "", text := "", like_source := "" }

/-- An identifier-only record with id `"A"`. -/
def recIdA : Record :=
  { tweet_id := "A", username := "", date := "", text := "", like_source := "",
    media_urls := [] }

/-- An identifier-only record with id `"B"`. -/
def recIdB : Record :=
  { tweet_id := "B", username := "", date := "", text := "", like_source := "",
    media_urls := [] }

/-- Record `"A"` as strategy 1 resolves it (now carrying a media URL). -/
def recResolvedA : Record :=
  { tweet_id := "A", username := "u", date := "", text := "", like_source := "twikit",
    media_urls := [{ scheme := "https", hostname := some "pbs.twimg.com",
                     path := "/a.jpg" }] }

/-! ## C2 — the manifest merge -/

/-- C2 counterexample: run.py's merge is plain concatenation, so merging
entry set A `[("1",0,pathA)]` before entry set B `[("1",0,pathB),
("2",0,pathC)]` keeps all three entries — it does not deduplicate to
`[("1",0,pathA), ("2",0,pathC)]` as the claim states. -/
theorem c2_merge_counterexample :
    mergeManifests [[entryA1], [entryB1, entryB2]] = [entryA1, entryB1, entryB2]
    ∧ mergeManifests [[entryA1], [entryB1, entryB2]] ≠ [entryA1, entryB2] := by
  constructor
  · rfl
  · decide

/-- C2 amended: the merge concatenates the entry sets in the fixed
precedence order (gallery-dl entries before CDN-download entries), with no
per-key deduplication; the key list of the merge is the concatenation of the
sets' key lists, so key uniqueness holds exactly when the sets are pairwise
key-disjoint (which the pipeline's upstream id partition provides); the
scenario yields all three entries. -/
theorem c2_merge_concatenates :
    (∀ sets : List (List ManifestEntry),
      keysOf (mergeManifests sets) = (sets.map keysOf).flatten)
    ∧ (∀ A B : List ManifestEntry,
      (keysOf A).Disjoint (keysOf B) → (keysOf A).Nodup → (keysOf B).Nodup →
        (keysOf (mergeManifests [A, B])).Nodup)
    ∧ mergeManifests [[entryA1], [entryB1, entryB2]] = [entryA1, entryB1, entryB2] := by
  refine ⟨fun sets => ?_, fun A B hd hA hB => ?_, rfl⟩
  · induction sets with
    | nil => rfl
    | cons A t ih =>
      simp only [mergeManifests, List.flatten_cons, List.map_cons] at ih ⊢
      simpa [keysOf, List.map_append] using ih
  · simp only [mergeManifests, keysOf, List.flatten, List.append_nil, List.map_append]
    rw [List.nodup_append]
    exact ⟨hA, hB, hd⟩

/-- C2 amended, witness: two key-disjoint singleton sets merge with
duplicate-free keys. -/
theorem c2_merge_concatenates_witness :
    (keysOf [entryA1]).Disjoint (keysOf [entryB2])
    ∧ (keysOf (mergeManifests [[entryA1], [entryB2]])).Nodup := by
  have hd : (keysOf [entryA1]).Disjoint (keysOf [entryB2]) := by
    intro a ha hb
    simp [keysOf, mkey, entryA1, entryB2] at ha hb
    rw [ha] at hb
    exact absurd hb (by decide)
  exact ⟨hd, c2_merge_concatenates.2.1 [entryA1] [entryB2] hd (by decide) (by decide)⟩

/-! ## C5 / C6 — the resolution cascade -/

/-- C5: the cascade never hands an already-resolved item to a later
strategy — every id offered to strategy 2 is absent from strategy 1's
resolved output, and every id offered to strategy 3 is absent from the
resolved outputs of strategies 1 and 2. -/
theorem c5_cascade_monotonic (idOnly : List Record)
    (s1 : Except Unit (List Record × List String))
    (s2 : List String → Except Unit (List Record × List String)) :
    (∀ l, (runCascade idOnly s1 s2).offered2 = some l →
      ∀ id ∈ l, id ∉ (runCascade idOnly s1 s2).resolved1)
    ∧ (∀ id ∈ (runCascade idOnly s1 s2).offered3,
      id ∉ (runCascade idOnly s1 s2).resolved1
      ∧ id ∉ (runCascade idOnly s1 s2).resolved2) := by
  rcases s1 with e | ⟨recs, ids⟩
  · rcases h2 : s2 (idOnly.map Record.tweet_id) with e2 | ⟨recs2, ids2⟩
    · exact ⟨fun l hl id hid => by simp [runCascade, h2],
        fun id hid => ⟨by simp [runCascade, h2], by simp [runCascade, h2]⟩⟩
    · refine ⟨fun l hl id hid => by simp [runCascade, h2], fun id hid => ?_⟩
      refine ⟨by simp [runCascade, h2], ?_⟩
      simp only [runCascade, h2, CascadeResult.offered3] at hid ⊢
      simp only [List.mem_map, List.mem_filter] at hid
      rcases hid with ⟨r, ⟨hr, hnc⟩, rfl⟩
      simpa using hnc
  · refine ⟨fun l hl => by simp [runCascade] at hl, fun id hid => ?_⟩
    refine ⟨?_, by simp [runCascade]⟩
    simp only [runCascade, CascadeResult.offered3] at hid ⊢
    simp only [List.mem_map, List.mem_filter] at hid
    rcases hid with ⟨r, ⟨hr, hnc⟩, rfl⟩
    simpa using hnc

/-- C5 witness: with both strategies failing, every id offered to later
strategies avoids the (empty) resolved outputs. -/
theorem c5_cascade_monotonic_witness :
    (runCascade [recIdA] (.error ()) (fun _ => .error ())).offered2 = some ["A"]
    ∧ "A" ∉ (runCascade [recIdA] (.error ()) (fun _ => .error ())).resolved1
    ∧ "A" ∈ (runCascade [recIdA] (.error ()) (fun _ => .error ())).offered3
    ∧ "A" ∉ (runCascade [recIdA] (.error ()) (fun _ => .error ())).resolved2 := by
  have h := c5_cascade_monotonic [recIdA] (.error ()) (fun _ => .error ())
  refine ⟨by decide, h.1 ["A"] (by decide) "A" (by decide),
    by decide, (h.2 "A" (by decide)).2⟩

/-- C6 counterexample: with strategy 1 completing normally and resolving
only `"A"`, the remaining item `"B"` is never offered to strategy 2 (the
paid-API fallback runs only when strategy 1 raises); `"B"` goes straight to
strategy 3 — contradicting the claimed transition rule "what remains is
offered to strategy 2". -/
theorem c6_counterexample :
    (runCascade [recIdA, recIdB] (.ok ([recResolvedA], ["A"]))
      (fun _ => .error ())).offered2 = none
    ∧ (runCascade [recIdA, recIdB] (.ok ([recResolvedA], ["A"]))
      (fun _ => .error ())).offered3 = ["B"] := by
  constructor <;> rfl

/-- C6 amended: the full id-only population is offered to strategy 1; when
strategy 1 completes, the items it resolved are removed and the remainder
goes directly to strategy 3 — strategy 2 is offered anything (namely the
full population) only when strategy 1 raises; what reaches strategy 3 is
the population minus all resolved ids; items unresolved after strategy 3
are not reported further (there is no exhausted-count report). -/
theorem c6_amended_transition_rule (idOnly : List Record)
    (s1 : Except Unit (List Record × List String))
    (s2 : List String → Except Unit (List Record × List String)) :
    (runCascade idOnly s1 s2).offered1 = idOnly.map Record.tweet_id
    ∧ (runCascade idOnly s1 s2).unresolved
      = idOnly.filter (fun r =>
        !((runCascade idOnly s1 s2).resolved1
          ++ (runCascade idOnly s1 s2).resolved2).contains r.tweet_id)
    ∧ ((runCascade idOnly s1 s2).offered2 = none ↔ ∃ v, s1 = .ok v) := by
  rcases s1 with e | ⟨recs, ids⟩
  · rcases h2 : s2 (idOnly.map Record.tweet_id) with e2 | ⟨recs2, ids2⟩ <;>
      simp [runCascade, h2]
  · simp [runCascade]

/-! ## C9 — a failing strategy and the fate of the run -/

/-- C9 counterexample: one id-only record, strategies 1 and 2 raising, and
the gallery-dl executable missing (`scrape` raising `FileNotFoundError`):
the whole run aborts — the missing external tool is not merely fatal for
its own stage. -/
theorem c9_counterexample :
    runPipeline [recIdA] (.error ()) (fun _ => .error ()) (fun _ => .error ())
      (fun _ => FetchResult.success) "downloads" [] = .error () := by
  rfl

/-- The cascade over an empty id-only population leaves nothing unresolved. -/
lemma runCascade_nil_unresolved (s1 : Except Unit (List Record × List String))
    (s2 : List String → Except Unit (List Record × List String)) :
    (runCascade [] s1 s2).unresolved = [] := by
  rcases s1 with e | ⟨recs, ids⟩
  · simp only [runCascade, List.map_nil]
    rcases s2 [] with e2 | ⟨recs2, ids2⟩ <;> simp
  · simp [runCascade]

/-- C9 amended: setup failures of strategies 1 and 2 are caught and the run
completes whenever the gallery-dl stage does not raise; but when records
remain unresolved and the gallery-dl launch raises `FileNotFoundError`, the
exception propagates out of `main` and aborts the whole run. -/
theorem c9_amended_abort_behaviour (records : List Record)
    (s1 : Except Unit (List Record × List String))
    (s2 : List String → Except Unit (List Record × List String))
    (scrape : List Record → Except Unit (List ManifestEntry))
    (fetch : Url → FetchResult) (dir : String) (files0 : List String) :
    ((∀ rs, (scrape rs).isOk = true) →
      (runPipeline records s1 s2 scrape fetch dir files0).isOk = true)
    ∧ ((runCascade ((dedupeByTid records).filter fun r => r.media_urls.isEmpty)
          s1 s2).unresolved ≠ [] →
      runPipeline records s1 s2 (fun _ => .error ()) fetch dir files0
        = .error ()) := by
  constructor
  · intro hsc
    unfold runPipeline
    by_cases hio : ((dedupeByTid records).filter fun r => r.media_urls.isEmpty).isEmpty
    · simp [hio, Except.isOk, Except.toBool]
    · simp only [hio, if_false, Bool.false_eq_true]
      set c := runCascade ((dedupeByTid records).filter fun r => r.media_urls.isEmpty) s1 s2
      by_cases hur : c.unresolved.isEmpty
      · simp [hur, Except.isOk, Except.toBool]
      · rcases hs : scrape c.unresolved with e | v
        · exact absurd (hsc c.unresolved) (by simp [hs, Except.isOk, Except.toBool])
        · simp [hur, hs, Except.isOk, Except.toBool]
  · intro hur
    have hio : ((dedupeByTid records).filter fun r => r.media_urls.isEmpty).isEmpty = false := by
      rcases hne : ((dedupeByTid records).filter fun r => r.media_urls.isEmpty) with _ | ⟨r, rest⟩
      · rw [hne] at hur
        exact absurd (runCascade_nil_unresolved s1 s2) hur
      · rw [hne]
        rfl
    have hure : (runCascade ((dedupeByTid records).filter fun r => r.media_urls.isEmpty)
        s1 s2).unresolved.isEmpty = false := by
      rcases h : (runCascade ((dedupeByTid records).filter fun r => r.media_urls.isEmpty)
          s1 s2).unresolved with _ | ⟨a, t⟩
      · exact absurd h hur
      · rfl
    unfold runPipeline
    simp [hio, hure]


/-- C9 amended, witness: with gallery-dl healthy the run completes despite
strategies 1 and 2 failing; with it missing and an unresolved record the
run aborts. -/
theorem c9_amended_abort_behaviour_witness :
    (runPipeline [recIdA] (.error ()) (fun _ => .error ()) (fun _ => .ok [])
        (fun _ => FetchResult.success) "downloads" []).isOk = true
    ∧ runPipeline [recIdA] (.error ()) (fun _ => .error ()) (fun _ => .error ())
        (fun _ => FetchResult.success) "downloads" [] = .error () := by
  refine ⟨(c9_amended_abort_behaviour [recIdA] (.error ()) (fun _ => .error ())
      (fun _ => .ok []) (fun _ => FetchResult.success) "downloads" []).1 (fun _ => rfl),
    (c9_amended_abort_behaviour [recIdA] (.error ()) (fun _ => .error ())
      (fun _ => .error ()) (fun _ => FetchResult.success) "downloads" []).2 (by decide)⟩

/-! ## C7 — the HTTP-429 retry loop -/

/-- A backend that throttles the first `N` sends (cool-down header `w`) and
then answers 200. -/
def throttleN (N : Nat) (w : Option Nat) : Nat → ApiResponse :=
  fun i => if i < N then { status := 429, retryAfter := w } else { status := 200, retryAfter := none }

/-- Once past the throttled prefix, the loop returns the success response at
once with no further sleep. -/
lemma runAttempts_throttleN_done (N : Nat) (w : Option Nat) (fuel i : Nat)
    (acc : List Nat) (h : N ≤ i) :
    runAttempts (throttleN N w) i fuel acc = ({ status := 200, retryAfter := none }, acc) := by
  unfold runAttempts
  simp [throttleN, Nat.not_lt.mpr h]

/-- While fuel runs out inside the throttled prefix, every attempt sleeps
and the final response is still 429. -/
lemma runAttempts_throttleN_exhaust (N : Nat) (w : Option Nat) :
    ∀ (fuel i : Nat) (acc : List Nat), i + fuel < N →
      runAttempts (throttleN N w) i fuel acc
        = ({ status := 429, retryAfter := w },
           acc ++ List.replicate (fuel + 1) (w.getD 60)) := by
  intro fuel
  induction fuel with
  | zero =>
    intro i acc h
    unfold runAttempts
    simp only [throttleN, if_pos (by omega : i < N)]
    simp [retryAfterSecs]
  | succ fuel ih =>
    intro i acc h
    unfold runAttempts
    simp only [throttleN, if_pos (by omega : i < N)]
    simp only [reduceIte]
    rw [ih (i + 1) _ (by omega)]
    simp [retryAfterSecs, List.replicate_succ, List.append_assoc]

/-- When the success index is within the remaining fuel, the loop sleeps
once per throttled attempt and ends on the success response. -/
lemma runAttempts_throttleN_succeeds (N : Nat) (w : Option Nat) :
    ∀ (fuel i : Nat) (acc : List Nat), i < N → N ≤ i + fuel →
      runAttempts (throttleN N w) i fuel acc
        = ({ status := 200, retryAfter := none },
           acc ++ List.replicate (N - i) (w.getD 60)) := by
  intro fuel
  induction fuel with
  | zero =>
    intro i acc h1 h2
    omega
  | succ fuel ih =>
    intro i acc h1 h2
    unfold runAttempts
    simp only [throttleN, if_pos h1]
    simp only [reduceIte]
    rcases Nat.lt_or_ge (i + 1) N with h3 | h3
    · rw [ih (i + 1) _ h3 (by omega)]
      have : N - i = (N - (i + 1)) + 1 := by omega
      simp [this, retryAfterSecs, List.replicate_succ, List.append_assoc]
    · rw [runAttempts_throttleN_done N w fuel (i + 1) _ h3]
      have : N - i = 1 := by omega
      simp [this, retryAfterSecs]

/-- The loop performs at most one sleep per attempt. -/
lemma runAttempts_sleeps_le (respond : Nat → ApiResponse) :
    ∀ (fuel i : Nat) (acc : List Nat),
      ((runAttempts respond i fuel acc).2).length ≤ acc.length + fuel + 1 := by
  intro fuel
  induction fuel with
  | zero =>
    intro i acc
    unfold runAttempts
    dsimp only
    split_ifs <;> simp
  | succ fuel ih =>
    intro i acc
    unfold runAttempts
    dsimp only
    split_ifs with h
    · calc ((runAttempts respond (i + 1) fuel (acc ++ [retryAfterSecs (respond i)])).2).length
          ≤ (acc ++ [retryAfterSecs (respond i)]).length + fuel + 1 := ih (i + 1) _
        _ = acc.length + (fuel + 1) + 1 := by simp; omega
    · simp
      omega

/-- C7: on HTTP 429 the client sleeps for the `Retry-After` cool-down (60s
when the header is absent) and resends the same request, with a ceiling of
5 attempts: a backend throttling `N < 5` times then succeeding yields the
success after exactly `N` waits, a backend throttling `N ≥ 5` times makes
the client surface the final 429 (`raise_for_status`) after exactly 5
attempts and 5 waits — and for every backend the loop is bounded by 5
sleeps, never unbounded. -/
theorem c7_rate_limit_retry_ceiling (N : Nat) (w : Option Nat) :
    (N < 5 → sendWithRetry (throttleN N w)
      = (.ok { status := 200, retryAfter := none }, List.replicate N (w.getD 60)))
    ∧ (5 ≤ N → sendWithRetry (throttleN N w)
      = (.error 429, List.replicate 5 (w.getD 60)))
    ∧ (∀ respond : Nat → ApiResponse, ((sendWithRetry respond).2).length ≤ 5) := by
  refine ⟨fun h5 => ?_, fun h5 => ?_, fun respond => ?_⟩
  · unfold sendWithRetry
    rcases Nat.eq_zero_or_pos N with rfl | hpos
    · rw [runAttempts_throttleN_done 0 w 4 0 [] (Nat.le_refl 0)]
      simp [raiseForStatus]
    · rw [runAttempts_throttleN_succeeds N w 4 0 [] hpos (by omega)]
      simp [raiseForStatus]
  · unfold sendWithRetry
    rw [runAttempts_throttleN_exhaust N w 4 0 [] (by omega)]
    simp [raiseForStatus]
  · have := runAttempts_sleeps_le respond 4 0 []
    unfold sendWithRetry
    simpa using this

/-- C7 witness: two throttles then success gives success after two 7-second
waits; persistent throttling surfaces the 429 after five 60-second waits. -/
theorem c7_rate_limit_retry_ceiling_witness :
    sendWithRetry (throttleN 2 (some 7))
      = (.ok { status := 200, retryAfter := none }, [7, 7])
    ∧ sendWithRetry (throttleN 9 none) = (.error 429, [60, 60, 60, 60, 60]) := by
  constructor
  · have := (c7_rate_limit_retry_ceiling 2 (some 7)).1 (by omega)
    simpa using this
  · have := (c7_rate_limit_retry_ceiling 9 none).2.1 (by omega)
    simpa using this

/-! ## C8 — the twikit batch loop -/

/-- The offsets actually called form a prefix of the offered offsets. -/
lemma twikitLoop_calls_take (call : Nat → BatchOutcome) (ids : List String)
    (bs : Nat) : ∀ (l : List Nat) (s : TwikitState),
      ∃ k, (twikitLoop call ids bs l s).calls = s.calls ++ l.take k := by
  intro l
  induction l with
  | nil => exact fun s => ⟨0, by simp [twikitLoop]⟩
  | cons i rest ih =>
    intro s
    unfold twikitLoop
    rcases hc : call i with tweets | rate
    · obtain ⟨k, hk⟩ := ih
        { records := s.records ++ tweets.filterMap id,
          resolved := s.resolved ++ batchAt ids bs i, failedStreak := 0,
          calls := s.calls ++ [i], sleeps := s.sleeps }
      exact ⟨k + 1, by rw [hk]; simp⟩
    · dsimp only
      split_ifs with h3 hrate
      · exact ⟨1, by simp⟩
      · obtain ⟨k, hk⟩ := ih
          { records := s.records, resolved := s.resolved,
            failedStreak := s.failedStreak + 1, calls := s.calls ++ [i],
            sleeps := s.sleeps ++ [min (60 * 2 ^ (s.failedStreak + 1)) 900] }
        exact ⟨k + 1, by rw [hk]; simp⟩
      · obtain ⟨k, hk⟩ := ih
          { records := s.records, resolved := s.resolved,
            failedStreak := s.failedStreak + 1, calls := s.calls ++ [i],
            sleeps := s.sleeps }
        exact ⟨k + 1, by rw [hk]; simp⟩

/-- `resolved` is exactly the union of the batches whose call succeeded. -/
lemma twikitLoop_resolved_iff (call : Nat → BatchOutcome) (ids : List String)
    (bs : Nat) : ∀ (l : List Nat) (s : TwikitState),
      (∀ id, id ∈ s.resolved ↔
        ∃ i ∈ s.calls, (call i).isOk = true ∧ id ∈ batchAt ids bs i) →
      ∀ id, id ∈ (twikitLoop call ids bs l s).resolved ↔
        ∃ i ∈ (twikitLoop call ids bs l s).calls,
          (call i).isOk = true ∧ id ∈ batchAt ids bs i := by
  intro l
  induction l with
  | nil => exact fun s h => h
  | cons i rest ih =>
    intro s hs
    unfold twikitLoop
    rcases hc : call i with tweets | rate
    · apply ih
      intro id
      simp only [List.mem_append, List.mem_singleton, hs id]
      constructor
      · rintro (⟨i', hi', hok, hmem⟩ | hmem)
        · exact ⟨i', by simp [hi'], hok, hmem⟩
        · exact ⟨i, by simp, by simp [BatchOutcome.isOk, hc], hmem⟩
      · rintro ⟨i', hi', hok, hmem⟩
        rcases hi' with hi' | rfl
        · exact .inl ⟨i', hi', hok, hmem⟩
        · exact .inr hmem
    · have hnext : ∀ id, id ∈ s.resolved ↔
          ∃ i' ∈ s.calls ++ [i], (call i').isOk = true ∧ id ∈ batchAt ids bs i' := by
        intro id
        rw [hs id]
        constructor
        · rintro ⟨i', hi', hok, hmem⟩
          exact ⟨i', by simp [hi'], hok, hmem⟩
        · rintro ⟨i', hi', hok, hmem⟩
          rcases List.mem_append.mp hi' with hi' | hi'
          · exact ⟨i', hi', hok, hmem⟩
          · rw [List.mem_singleton.mp hi'] at hok
            simp [BatchOutcome.isOk, hc] at hok
      dsimp only
      split_ifs with h3 hrate
      · exact hnext
      · exact ih _ hnext
      · exact ih _ hnext

/-- Every backoff the loop performs is capped at 900 seconds. -/
lemma twikitLoop_sleeps_capped (call : Nat → BatchOutcome) (ids : List String)
    (bs : Nat) : ∀ (l : List Nat) (s : TwikitState),
      (∀ w ∈ s.sleeps, w ≤ 900) →
      ∀ w ∈ (twikitLoop call ids bs l s).sleeps, w ≤ 900 := by
  intro l
  induction l with
  | nil => exact fun s h => h
  | cons i rest ih =>
    intro s hs
    unfold twikitLoop
    rcases hc : call i with tweets | rate
    · exact ih _ hs
    · dsimp only
      split_ifs with h3 hrate
      · exact hs
      · apply ih
        intro w hw
        rcases List.mem_append.mp hw with hw | hw
        · exact hs w hw
        · rw [List.mem_singleton.mp hw]
          exact Nat.min_le_right _ _
      · exact ih _ hs

/-- With no failing batch at all, every offered offset is called. -/
lemma twikitLoop_all_ok_calls (call : Nat → BatchOutcome) (ids : List String)
    (bs : Nat) (hok : ∀ i, (call i).isOk = true) :
    ∀ (l : List Nat) (s : TwikitState),
      (twikitLoop call ids bs l s).calls = s.calls ++ l := by
  intro l
  induction l with
  | nil => exact fun s => by simp [twikitLoop]
  | cons i rest ih =>
    intro s
    unfold twikitLoop
    rcases hc : call i with tweets | rate
    · dsimp only
      have hstep := ih
        { records := s.records ++ tweets.filterMap id,
          resolved := s.resolved ++ batchAt ids bs i, failedStreak := 0,
          calls := s.calls ++ [i], sleeps := s.sleeps }
      rw [hstep]
      simp
    · have := hok i
      rw [hc] at this
      simp [BatchOutcome.isOk] at this

/-- The chunk offsets are pairwise distinct. -/
lemma chunkStarts_nodup (total bs : Nat) (h : 0 < bs) :
    (chunkStarts total bs).Nodup :=
  List.Nodup.map (fun a b hab => Nat.eq_of_mul_eq_mul_right h hab) (List.nodup_range _)

/-- C8 counterexample: 21 ids (two batches, offsets 0 and 20), the first
batch throttled, the second fine.  `_resolve_batch` sleeps the backoff
(`min(60·2¹, 900) = 120`) and then proceeds to offset 20 — the throttled
batch is called exactly once, never retried, and its ids (e.g. `"0"`) stay
unresolved. -/
theorem c8_counterexample :
    (resolveBatch (fun i => if i = 0 then .err true else .ok [])
      ((List.range 21).map natToString)).calls = [0, 20]
    ∧ (resolveBatch (fun i => if i = 0 then .err true else .ok [])
      ((List.range 21).map natToString)).sleeps = [120]
    ∧ "0" ∉ (resolveBatch (fun i => if i = 0 then .err true else .ok [])
      ((List.range 21).map natToString)).resolved := by
  refine ⟨by decide, by decide, by decide⟩

/-- C8 amended: on a throttling failure `_resolve_batch` sleeps the
exponential backoff (capped at 900 s) and then moves on to the *next*
batch — each batch offset is sent at most once, so the throttled batch is
abandoned for this strategy (it is also not marked resolved: `resolved` is
exactly the union of the successfully-called batches, so it falls through
to later strategies); when no batch fails, all batches are offered (the
hard stop only follows 3 consecutive failures). -/
theorem c8_amended_backoff_skips_batch (call : Nat → BatchOutcome)
    (ids : List String) (bs : Nat) (hbs : 0 < bs) :
    (resolveBatch call ids bs).calls.Nodup
    ∧ (∀ id, id ∈ (resolveBatch call ids bs).resolved ↔
        ∃ i ∈ (resolveBatch call ids bs).calls,
          (call i).isOk = true ∧ id ∈ batchAt ids bs i)
    ∧ (∀ w ∈ (resolveBatch call ids bs).sleeps, w ≤ 900)
    ∧ ((∀ i, (call i).isOk = true) →
        (resolveBatch call ids bs).calls = chunkStarts ids.length bs) := by
  refine ⟨?_, ?_, ?_, ?_⟩
  · obtain ⟨k, hk⟩ := twikitLoop_calls_take call ids bs
      (chunkStarts ids.length bs) _
    unfold resolveBatch
    rw [hk]
    simpa using (chunkStarts_nodup ids.length bs hbs).sublist (List.take_sublist _ _)
  · exact twikitLoop_resolved_iff call ids bs _ _ (by simp)
  · exact twikitLoop_sleeps_capped call ids bs _ _ (by simp)
  · intro hok
    unfold resolveBatch
    simpa using twikitLoop_all_ok_calls call ids bs hok _ _

/-- C8 amended, witness: in the two-batch scenario the call list is
duplicate-free, the backoff is within the cap, and a successful batch's ids
land in `resolved` while the throttled batch's do not. -/
theorem c8_amended_backoff_skips_batch_witness :
    (resolveBatch (fun i => if i = 0 then .err true else .ok [])
      ((List.range 21).map natToString)).calls.Nodup
    ∧ ("20" ∈ (resolveBatch (fun i => if i = 0 then .err true else .ok [])
        ((List.range 21).map natToString)).resolved ↔
      ∃ i ∈ (resolveBatch (fun i => if i = 0 then .err true else .ok [])
        ((List.range 21).map natToString)).calls,
        ((fun i => if i = 0 then BatchOutcome.err true else .ok []) i).isOk = true
        ∧ "20" ∈ batchAt ((List.range 21).map natToString) 20 i) := by
  have h := c8_amended_backoff_skips_batch
    (fun i => if i = 0 then .err true else .ok [])
    ((List.range 21).map natToString) 20 (by decide)
  exact ⟨h.1, h.2.1 "20"⟩

/-! ## C4 — the host allowlist -/

/-- A `file://` URI pointing into the local filesystem. -/
def urlFile : Url := { scheme := "file", hostname := none, path := "/etc/passwd" }

/-- A record whose only media location is the `file://` URI. -/
def recFile : Record :=
  { tweet_id := "1", username := "", date := "", text := "", like_source := "",
    media_urls := [urlFile] }

/-- An allowlisted CDN URL. -/
def urlPbs : Url := { scheme := "https", hostname := some "pbs.twimg.com", path := "/a.jpg" }

/-- A record carrying the allowlisted URL. -/
def recPbs : Record :=
  { tweet_id := "7", username := "", date := "", text := "", like_source := "",
    media_urls := [urlPbs] }

/-- A step never logs a fetch for a disallowed URL. -/
lemma dlStep_fetches_allowed (skip : Bool) (fetch : Url → FetchResult) (d : String)
    (s : DlState) (j : Job)
    (h : ∀ p ∈ s.fetches, isAllowedUrl p.2 = true) :
    ∀ p ∈ (dlStep skip fetch d s j).fetches, isAllowedUrl p.2 = true := by
  unfold dlStep
  dsimp only
  cases hf : fetch j.url <;> split_ifs with h1 h2 h3 <;>
    first
      | exact h
      | · intro p hp
          rcases List.mem_append.mp hp with hp | hp
          · exact h p hp
          · rw [List.mem_singleton.mp hp]
            exact h3

/-- With skip-existing off, a step leaves the manifest alone unless the
fetch of an allowlisted URL streamed to completion. -/
lemma dlStep_false_entries_cases (fetch : Url → FetchResult) (d : String)
    (s : DlState) (j : Job) :
    (dlStep false fetch d s j).entries = s.entries
    ∨ ((dlStep false fetch d s j).entries = s.entries ++ [jobEntry d j]
      ∧ isAllowedUrl j.url = true ∧ fetch j.url = .success) := by
  unfold dlStep
  dsimp only
  cases hf : fetch j.url <;> split_ifs with h1 h2 h3 <;>
    first
      | exact .inl rfl
      | exact .inr ⟨rfl, h3, hf⟩
      | simp_all

/-- Every entry of a `skip_existing=False` run stems from one of the run's
jobs whose URL passed the allowlist and whose fetch succeeded. -/
lemma dlRun_entries_sources (fetch : Url → FetchResult) (d : String) :
    ∀ (jobs : List Job) (s : DlState), ∀ e ∈ (dlRun false fetch d jobs s).entries,
      e ∈ s.entries ∨ ∃ j ∈ jobs, e = jobEntry d j
        ∧ isAllowedUrl j.url = true ∧ fetch j.url = .success := by
  intro jobs
  induction jobs with
  | nil => exact fun s e he => .inl he
  | cons j rest ih =>
    intro s e he
    rcases ih (dlStep false fetch d s j) e he with hin | ⟨j', hj', rest_h⟩
    · rcases dlStep_false_entries_cases fetch d s j with hcase | ⟨hcase, ha, hf⟩
      · rw [hcase] at hin
        exact .inl hin
      · rw [hcase] at hin
        rcases List.mem_append.mp hin with hin | hin
        · exact .inl hin
        · exact .inr ⟨j, List.mem_cons_self j rest, List.mem_singleton.mp hin, ha, hf⟩
    · exact .inr ⟨j', List.mem_cons_of_mem j hj', rest_h⟩

/-- C4 counterexample: with skip-existing enabled (the default) and the
staging directory already holding `1_0.jpg`, a record whose media location
is `file:///etc/passwd` (scheme not http/https) produces **one**
manifest entry keyed `("1", 0)` — without any fetch.  The claim's "zero
ManifestEntry for that location" is therefore false; only the zero-fetch
half holds. -/
theorem c4_counterexample :
    isAllowedUrl urlFile = false
    ∧ (downloadAll true (fun _ => FetchResult.failEarly) "downloads" [recFile]
        ["1_0.jpg"]).fetches = []
    ∧ keysOf (downloadAll true (fun _ => FetchResult.failEarly) "downloads" [recFile]
        ["1_0.jpg"]).entries = [("1", 0)] := by
  refine ⟨by decide, by decide, by decide⟩

/-- C4 amended: a media location whose scheme is not http/https or whose
host is outside `{pbs.twimg.com, ton.twimg.com, video.twimg.com}` is never
fetched (every logged fetch is of an allowlisted URL — zero downloaded
bytes for disallowed locations), and with skip-existing disabled it also
produces zero manifest entries (every entry stems from an allowed,
successfully fetched job); with skip-existing enabled, a file already
staged at the key's deterministic path yields an entry without any fetch
even for a disallowed location. -/
theorem c4_allowlist_rejection (skip : Bool) (fetch : Url → FetchResult) (dir : String)
    (records : List Record) (files0 : List String) :
    (∀ p ∈ (downloadAll skip fetch dir records files0).fetches,
      isAllowedUrl p.2 = true)
    ∧ (∀ e ∈ (downloadAll false fetch dir records files0).entries,
      ∃ j ∈ jobsOf records, e = jobEntry dir j
        ∧ isAllowedUrl j.url = true ∧ fetch j.url = .success) := by
  constructor
  · exact foldl_preserve (fun s j h => dlStep_fetches_allowed skip fetch dir s j h)
      (jobsOf records) _ (by simp)
  · intro e he
    rcases dlRun_entries_sources fetch dir (jobsOf records) _ e he with hin | hj
    · simp at hin
    · exact hj

/-- A network oracle on which every fetch succeeds. -/
def fetch0 : Url → FetchResult := fun _ => .success

/-- C4 amended, witness: in a one-record run over the allowlisted URL the
only fetch is of an allowed URL, and the only entry stems from an allowed,
successfully fetched job. -/
theorem c4_allowlist_rejection_witness :
    isAllowedUrl ((("7", (0 : Int)), urlPbs)).2 = true
    ∧ ∃ j ∈ jobsOf [recPbs],
        jobEntry "downloads" { record := recPbs, idx := 0, url := urlPbs } = jobEntry "downloads" j
        ∧ isAllowedUrl j.url = true ∧ fetch0 j.url = .success := by
  constructor
  · exact (c4_allowlist_rejection true fetch0 "downloads" [recPbs] []).1
      ((("7", (0 : Int)), urlPbs)) (by decide)
  · exact (c4_allowlist_rejection true fetch0 "downloads" [recPbs] []).2
      (jobEntry "downloads" { record := recPbs, idx := 0, url := urlPbs }) (by decide)

/-! ## C10 — the scrape manifest collection -/

/-- What it takes for a directory entry to contribute a manifest entry:
`{tweet_id}_{num}` stem (split at the last underscore, `num` accepted by
`int()`) with a recognized image extension. -/
def matchesScrapePattern (name : String) : Bool :=
  IMAGE_EXTENSIONS.contains (⟨(pySuffix name).data.map Char.toLower⟩ : String)
  && (match rsplitUnderscore (pyStem name) with
      | none => false
      | some (_, numStr) => (pyIntParse numStr).isSome)

/-- The tweet id encoded in a matching file name (text before the stem's
last underscore). -/
def scrapeTid (name : String) : String :=
  ((rsplitUnderscore (pyStem name)).map Prod.fst).getD ""

/-- The 1-based gallery-dl number encoded in a matching file name. -/
def scrapeNum (name : String) : Int :=
  ((rsplitUnderscore (pyStem name)).bind fun p => pyIntParse p.2).getD 0

/-- `scrapeEntry?` succeeds exactly on pattern-matching names. -/
lemma scrapeEntry?_isSome (dir : String) (meta : String → Option ScrapeMeta)
    (recs : String → Option Record) (nm : String) :
    (scrapeEntry? dir meta recs nm).isSome = matchesScrapePattern nm := by
  unfold scrapeEntry? matchesScrapePattern
  by_cases hext : (⟨(pySuffix nm).data.map Char.toLower⟩ : String) ∈ IMAGE_EXTENSIONS
  · rcases hsplit : rsplitUnderscore (pyStem nm) with _ | ⟨tid, numStr⟩
    · simp [hext, hsplit]
    · rcases hnum : pyIntParse numStr with _ | num <;>
        simp [hext, hsplit, hnum]
  · simp [hext]

/-- The fields a produced entry inherits from its file name. -/
lemma scrapeEntry?_fields (dir : String) (meta : String → Option ScrapeMeta)
    (recs : String → Option Record) (nm : String) (e : ManifestEntry)
    (h : scrapeEntry? dir meta recs nm = some e) :
    matchesScrapePattern nm = true ∧ e.tweet_id = scrapeTid nm
      ∧ e.index = scrapeNum nm - 1 ∧ e.path = dir ++ "/" ++ nm := by
  have hsome : (scrapeEntry? dir meta recs nm).isSome = true := by simp [h]
  rw [scrapeEntry?_isSome] at hsome
  refine ⟨hsome, ?_⟩
  unfold scrapeEntry? at h
  by_cases hext : (⟨(pySuffix nm).data.map Char.toLower⟩ : String) ∈ IMAGE_EXTENSIONS
  · rcases hsplit : rsplitUnderscore (pyStem nm) with _ | ⟨tid, numStr⟩
    · rw [hsplit] at h
      simp [hext] at h
    · rw [hsplit, if_neg (not_not_intro hext)] at h
      dsimp only at h
      rcases hnum : pyIntParse numStr with _ | num
      · rw [hnum] at h
        simp at h
      · rw [hnum] at h
        injection h with h
        subst h
        simp [scrapeTid, scrapeNum, hsplit, hnum]
  · simp [hext] at h

/-- `filterMap` keeps exactly the elements the partial function accepts. -/
lemma length_filterMap_eq_length_filter {α β : Type} (f : α → Option β) :
    ∀ l : List α, (l.filterMap f).length = (l.filter fun a => (f a).isSome).length := by
  intro l
  induction l with
  | nil => rfl
  | cons a t ih => cases hf : f a <;> simp [List.filterMap_cons, hf, ih]

/-- C10: every manifest entry collected from the scrape staging directory
comes from a directory entry matching `{tweet_id}_{num}` with a recognized
image extension (`.jpg .jpeg .png .gif .webp`, case-insensitive), carrying
that name's tweet id, path, and the 1-based number converted to the 0-based
media index (`num - 1`); names not matching the pattern contribute nothing
(the output length equals the number of matching names). -/
theorem c10_scrape_collection_pattern (dir : String) (files : List String)
    (meta : String → Option ScrapeMeta) (recs : String → Option Record) :
    (∀ e ∈ collectManifestEntries dir files meta recs,
      ∃ nm ∈ files, matchesScrapePattern nm = true ∧ e.tweet_id = scrapeTid nm
        ∧ e.index = scrapeNum nm - 1 ∧ e.path = dir ++ "/" ++ nm)
    ∧ (collectManifestEntries dir files meta recs).length
        = (files.filter matchesScrapePattern).length := by
  constructor
  · intro e he
    obtain ⟨nm, hnm, hsome⟩ := List.mem_filterMap.mp he
    obtain ⟨hmatch, htid, hidx, hpath⟩ := scrapeEntry?_fields dir meta recs nm e hsome
    exact ⟨nm, hnm, hmatch, htid, hidx, hpath⟩
  · rw [collectManifestEntries, length_filterMap_eq_length_filter]
    congr 1
    exact List.filter_congr fun nm _ => scrapeEntry?_isSome dir meta recs nm

/-- C10 witness: the listing `["123_1.jpg", "readme.txt"]` yields one entry,
derived from the matching name with index `1 - 1 = 0`. -/
theorem c10_scrape_collection_pattern_witness :
    (∃ nm ∈ ["123_1.jpg", "readme.txt"], matchesScrapePattern nm = true
      ∧ ("123" : String) = scrapeTid nm ∧ (0 : Int) = scrapeNum nm - 1
      ∧ ("downloads/123_1.jpg" : String) = "downloads" ++ "/" ++ nm)
    ∧ (collectManifestEntries "downloads" ["123_1.jpg", "readme.txt"]
        (fun _ => none) (fun _ => none)).length
      = (["123_1.jpg", "readme.txt"].filter matchesScrapePattern).length := by
  constructor
  · have h := (c10_scrape_collection_pattern "downloads" ["123_1.jpg", "readme.txt"]
      (fun _ => none) (fun _ => none)).1
      { tweet_id := "123", index := 0, path := "downloads/123_1.jpg",
        username := "unknown", date := "", text := "", like_source := "scrape" }
      (by decide)
    obtain ⟨nm, hnm, hmatch, htid, hidx, hpath⟩ := h
    exact ⟨nm, hnm, hmatch, htid, hidx, hpath⟩
  · exact (c10_scrape_collection_pattern "downloads" ["123_1.jpg", "readme.txt"]
      (fun _ => none) (fun _ => none)).2

/-! ## C3 — skip-existing idempotence

The decisive fact is that the deterministic staging filename
`{tweet_id}_{index}.{ext}` determines its key: the suffix after the last
underscore is a pure digit string and the extension after the last dot is
one of four fixed dot-free strings, so distinct keys never share a
filename.  With that, running `download_all` a second time on the staging
directory the first run left behind replays exactly the same manifest,
taking the skip path wherever the first run fetched successfully. -/

/-- `digitChar` never produces the separators. -/
lemma digitChar_not_sep (d : Nat) : digitChar d ≠ '_' ∧ digitChar d ≠ '.' := by
  unfold digitChar
  split <;> exact ⟨by decide, by decide⟩

/-- Decimal digit strings contain no separator characters. -/
lemma natDigits_not_sep (n : Nat) : ∀ c ∈ natDigits n, c ≠ '_' ∧ c ≠ '.' := by
  induction n using Nat.strong_induction_on with
  | _ n ih =>
    rw [natDigits_eq]
    split_ifs with h10
    · intro c hc
      rw [List.mem_singleton.mp hc]
      exact digitChar_not_sep n
    · intro c hc
      rcases List.mem_append.mp hc with hc | hc
      · exact ih (n / 10) (Nat.div_lt_self (by omega) (by norm_num)) c hc
      · rw [List.mem_singleton.mp hc]
        exact digitChar_not_sep (n % 10)

/-- A decimal digit string is never empty. -/
lemma natDigits_ne_nil (n : Nat) : natDigits n ≠ [] := by
  rw [natDigits_eq]
  split_ifs <;> simp

/-- Value of a digit character. -/
def digitVal (c : Char) : Nat := c.toNat - 48

/-- `digitVal` inverts `digitChar` on digits. -/
lemma digitVal_digitChar (d : Nat) (h : d < 10) : digitVal (digitChar d) = d := by
  interval_cases d <;> decide

/-- `digitsVal` peels the last digit. -/
lemma digitsVal_append_singleton (l : List Char) (c : Char) :
    digitsVal (l ++ [c]) = digitsVal l * 10 + (c.toNat - 48) := by
  unfold digitsVal
  rw [List.foldl_append]
  rfl

/-- `digitsVal` inverts `natDigits`. -/
lemma digitsVal_natDigits (n : Nat) : digitsVal (natDigits n) = n := by
  induction n using Nat.strong_induction_on with
  | _ n ih =>
    rw [natDigits_eq]
    split_ifs with h10
    · show digitsVal ([] ++ [digitChar n]) = n
      rw [digitsVal_append_singleton]
      have := digitVal_digitChar n h10
      unfold digitVal at this
      simp [digitsVal, this]
    · rw [digitsVal_append_singleton,
        ih (n / 10) (Nat.div_lt_self (by omega) (by norm_num))]
      have := digitVal_digitChar (n % 10) (Nat.mod_lt n (by norm_num))
      unfold digitVal at this
      omega

/-- Decimal digit strings are injective. -/
lemma natDigits_inj {a b : Nat} (h : natDigits a = natDigits b) : a = b := by
  have := congrArg digitsVal h
  rwa [digitsVal_natDigits, digitsVal_natDigits] at this

/-- Splitting at a separator that occurs in neither left part is
unambiguous. -/
lemma sep_split (c : Char) : ∀ (a1 a2 b1 b2 : List Char), c ∉ a1 → c ∉ a2 →
    a1 ++ c :: b1 = a2 ++ c :: b2 → a1 = a2 ∧ b1 = b2 := by
  intro a1
  induction a1 with
  | nil =>
    intro a2 b1 b2 h1 h2 heq
    cases a2 with
    | nil =>
      simp at heq
      exact ⟨rfl, heq⟩
    | cons y u =>
      simp at heq
      exact absurd (heq.1 ▸ List.mem_cons_self y u) (heq.1 ▸ h2)
  | cons x t ih =>
    intro a2 b1 b2 h1 h2 heq
    cases a2 with
    | nil =>
      simp at heq
      exact absurd (heq.1 ▸ List.mem_cons_self x t) (heq.1 ▸ h1)
    | cons y u =>
      simp only [List.cons_append, List.cons.injEq] at heq
      obtain ⟨ht, hb⟩ := ih u b1 b2 (fun hc => h1 (List.mem_cons_of_mem x hc))
        (fun hc => h2 (List.mem_cons_of_mem y hc)) heq.2
      exact ⟨by rw [heq.1, ht], hb⟩

/-- Data of a string concatenation. -/
lemma str_data_append (a b : String) : (a ++ b).data = a.data ++ b.data := rfl

/-- The extensions `download_all` ever chooses. -/
lemma extensionFromUrl_mem (u : Url) :
    extensionFromUrl u ∈ (["jpg", "png", "gif", "webp"] : List String) := by
  unfold extensionFromUrl
  rcases afterLastDot u.path.data with _ | extChars
  · simp
  · dsimp only
    split_ifs with h1 h2
    · simp
    · simpa using h2
    · simp

/-- The chosen extensions contain no separator characters (checked on the
four members). -/
lemma ext_no_sep (e : String) (he : e ∈ (["jpg", "png", "gif", "webp"] : List String)) :
    '.' ∉ e.data ∧ '_' ∉ e.data ∧ e.data ≠ [] := by
  simp only [List.mem_cons, List.mem_singleton, List.not_mem_nil, or_false] at he
  rcases he with rfl | rfl | rfl | rfl <;> exact ⟨by decide, by decide, by decide⟩

/-- The deterministic filename determines the key: two
`{tweet_id}_{index}.{ext}` names built with recognized extensions are equal
only when tweet id and index agree. -/
lemma safeFilename_inj {t1 t2 : String} {i1 i2 : Nat} {e1 e2 : String}
    (he1 : e1 ∈ (["jpg", "png", "gif", "webp"] : List String))
    (he2 : e2 ∈ (["jpg", "png", "gif", "webp"] : List String))
    (h : safeFilenameTweetIndex t1 i1 e1 = safeFilenameTweetIndex t2 i2 e2) :
    t1 = t2 ∧ i1 = i2 := by
  have hdata := congrArg String.data h
  unfold safeFilenameTweetIndex at hdata
  have h1 : ("_" : String).data = ['_'] := rfl
  have h2 : ("." : String).data = ['.'] := rfl
  simp only [str_data_append, h1, h2] at hdata
  have hrev := congrArg List.reverse hdata
  simp only [List.reverse_append, List.reverse_cons, List.reverse_nil,
    List.nil_append, List.append_assoc, List.singleton_append] at hrev
  obtain ⟨hnd1, _, hne1⟩ := ext_no_sep e1 he1
  obtain ⟨hnd2, _, hne2⟩ := ext_no_sep e2 he2
  obtain ⟨hexts, hrest⟩ := sep_split '.' e1.data.reverse e2.data.reverse _ _
    (by simpa using hnd1) (by simpa using hnd2) hrev
  simp only [List.append_eq, List.append_assoc, List.singleton_append] at hrest
  have hu1 : '_' ∉ (natToString i1).data.reverse := by
    intro hc
    exact ((natDigits_not_sep i1 _ (List.mem_reverse.mp hc)).1) rfl
  have hu2 : '_' ∉ (natToString i2).data.reverse := by
    intro hc
    exact ((natDigits_not_sep i2 _ (List.mem_reverse.mp hc)).1) rfl
  obtain ⟨hnums, htids⟩ := sep_split '_' (natToString i1).data.reverse
    (natToString i2).data.reverse _ _ hu1 hu2 hrest
  refine ⟨?_, ?_⟩
  · have := congrArg List.reverse htids
    simp only [List.reverse_reverse] at this
    exact congrArg String.mk this
  · have := congrArg List.reverse hnums
    simp only [List.reverse_reverse] at this
    exact natDigits_inj this

/-- Filename injectivity at the job level. -/
lemma jobName_inj {j1 j2 : Job} (h : jobName j1 = jobName j2) :
    jobKey j1 = jobKey j2 := by
  obtain ⟨ht, hi⟩ := safeFilename_inj (extensionFromUrl_mem j1.url)
    (extensionFromUrl_mem j2.url) h
  unfold jobKey
  rw [ht, hi]

/-- Unfolding `dlRun` over one job. -/
lemma dlRun_cons (skip : Bool) (fetch : Url → FetchResult) (d : String)
    (j : Job) (rest : List Job) (s : DlState) :
    dlRun skip fetch d (j :: rest) s = dlRun skip fetch d rest (dlStep skip fetch d s j) := rfl

/-- An already-seen key makes the step a no-op. -/
lemma dlStep_of_seen (skip : Bool) (fetch : Url → FetchResult) (d : String)
    (s : DlState) (j : Job) (hc : jobKey j ∈ s.seen) :
    dlStep skip fetch d s j = s := by
  unfold dlStep
  simp [hc]

/-- A step leaves the staging set alone or adds exactly the job's file. -/
lemma dlStep_files_cases (skip : Bool) (fetch : Url → FetchResult) (d : String)
    (s : DlState) (j : Job) :
    (dlStep skip fetch d s j).files = s.files
      ∨ (dlStep skip fetch d s j).files = jobName j :: s.files := by
  unfold dlStep
  dsimp only
  cases hf : fetch j.url <;> split_ifs <;> simp

/-- A step leaves the manifest alone or appends exactly the job's entry,
the latter only for an unseen key. -/
lemma dlStep_entries_cases (skip : Bool) (fetch : Url → FetchResult) (d : String)
    (s : DlState) (j : Job) :
    (dlStep skip fetch d s j).entries = s.entries
      ∨ ((dlStep skip fetch d s j).entries = s.entries ++ [jobEntry d j]
        ∧ jobKey j ∉ s.seen) := by
  unfold dlStep
  dsimp only
  cases hf : fetch j.url <;> split_ifs with h1 h2 h3 <;>
    first
      | exact .inl rfl
      | exact .inr ⟨rfl, by simpa using h1⟩

/-- With skip-existing on and the job's file already staged, a step touches
neither the fetch log nor the staging set. -/
lemma dlStep_skip_branch (fetch : Url → FetchResult) (d : String)
    (s : DlState) (j : Job) (hin : jobName j ∈ s.files) :
    (dlStep true fetch d s j).fetches = s.fetches
      ∧ (dlStep true fetch d s j).files = s.files := by
  unfold dlStep
  dsimp only
  cases hf : fetch j.url <;> split_ifs with h1 h2 h3 <;>
    first
      | exact ⟨rfl, rfl⟩
      | exact absurd ⟨rfl, List.elem_iff.mpr hin⟩ h2

/-- A file name absent from staging stays absent when every remaining job
that could produce it has an already-seen key. -/
lemma dlRun_files_not_added (skip : Bool) (fetch : Url → FetchResult) (d : String) :
    ∀ (jobs : List Job) (s : DlState) (name : String),
      name ∉ s.files →
      (∀ j ∈ jobs, jobName j = name → jobKey j ∈ s.seen) →
      name ∉ (dlRun skip fetch d jobs s).files := by
  intro jobs
  induction jobs with
  | nil => exact fun s name h _ => h
  | cons j rest ih =>
    intro s name hnf hseen
    rw [dlRun_cons]
    by_cases hc : jobKey j ∈ s.seen
    · rw [dlStep_of_seen skip fetch d s j hc]
      exact ih s name hnf fun j' hj' hn => hseen j' (List.mem_cons_of_mem j hj') hn
    · have hname : jobName j ≠ name := fun hn =>
        hc (hseen j (List.mem_cons_self j rest) hn)
      have hnf' : name ∉ (dlStep skip fetch d s j).files := by
        rcases dlStep_files_cases skip fetch d s j with h | h
        · rw [h]
          exact hnf
        · rw [h]
          intro hmem
          rcases List.mem_cons.mp hmem with he | hm
          · exact hname he.symm
          · exact hnf hm
      exact ih _ name hnf' fun j' hj' hn =>
        dlStep_seen_mono skip fetch d s j (hseen j' (List.mem_cons_of_mem j hj') hn)

/-- A key that is already seen and not yet in the manifest never enters the
manifest later. -/
lemma dlRun_key_not_entered (skip : Bool) (fetch : Url → FetchResult) (d : String) :
    ∀ (jobs : List Job) (s : DlState) (k : String × Int),
      k ∈ s.seen → k ∉ keysOf s.entries →
      k ∉ keysOf (dlRun skip fetch d jobs s).entries := by
  intro jobs
  induction jobs with
  | nil => exact fun s k _ h => h
  | cons j rest ih =>
    intro s k hks hke
    rw [dlRun_cons]
    have hke' : k ∉ keysOf (dlStep skip fetch d s j).entries := by
      rcases dlStep_entries_cases skip fetch d s j with h | ⟨h, hns⟩
      · rw [h]
        exact hke
      · rw [h]
        simp only [keysOf, List.map_append, List.map_cons, List.map_nil,
          List.mem_append, List.mem_singleton]
        rintro (hmem | he)
        · exact hke hmem
        · rw [mkey_jobEntry] at he
          exact hns (he ▸ hks)
    exact ih _ k (dlStep_seen_mono skip fetch d s j hks) hke'

/-- With every job's file already staged (and skip-existing on), a run
issues no fetch at all. -/
lemma dlRun_all_staged_no_fetch (fetch : Url → FetchResult) (d : String) :
    ∀ (jobs : List Job) (s : DlState),
      (∀ j ∈ jobs, jobName j ∈ s.files) →
      (dlRun true fetch d jobs s).fetches = s.fetches := by
  intro jobs
  induction jobs with
  | nil => exact fun s _ => rfl
  | cons j rest ih =>
    intro s hall
    have h := dlStep_skip_branch fetch d s j (hall j (List.mem_cons_self j rest))
    rw [dlRun_cons, ih _ fun j' hj' => h.2 ▸ hall j' (List.mem_cons_of_mem j hj')]
    exact h.1

/-- The skip-existing branch of a step. -/
lemma dlStep_skip_eq (fetch : Url → FetchResult) (d : String) (s : DlState) (j : Job)
    (hc : jobKey j ∉ s.seen) (hin : jobName j ∈ s.files) :
    dlStep true fetch d s j
      = { seen := jobKey j :: s.seen, files := s.files,
          entries := s.entries ++ [jobEntry d j], fetches := s.fetches } := by
  unfold dlStep
  simp [hc, hin]

/-- The successful-fetch branch of a step. -/
lemma dlStep_fetchT_eq (fetch : Url → FetchResult) (d : String) (s : DlState) (j : Job)
    (hc : jobKey j ∉ s.seen) (hin : jobName j ∉ s.files)
    (ha : isAllowedUrl j.url = true) (hf : fetch j.url = .success) :
    dlStep true fetch d s j
      = { seen := jobKey j :: s.seen, files := jobName j :: s.files,
          entries := s.entries ++ [jobEntry d j],
          fetches := s.fetches ++ [(jobKey j, j.url)] } := by
  unfold dlStep
  simp [hc, hin, ha, hf]

/-- The early-failure branch of a step: the fetch dies before the file is
opened, so nothing is staged. -/
lemma dlStep_fetchF_eq (fetch : Url → FetchResult) (d : String) (s : DlState) (j : Job)
    (hc : jobKey j ∉ s.seen) (hin : jobName j ∉ s.files)
    (ha : isAllowedUrl j.url = true) (hf : fetch j.url = .failEarly) :
    dlStep true fetch d s j
      = { seen := jobKey j :: s.seen, files := s.files,
          entries := s.entries, fetches := s.fetches ++ [(jobKey j, j.url)] } := by
  unfold dlStep
  simp [hc, hin, ha, hf]

/-- The blocked-host branch of a step. -/
lemma dlStep_blocked_eq (fetch : Url → FetchResult) (d : String) (s : DlState) (j : Job)
    (hc : jobKey j ∉ s.seen) (hin : jobName j ∉ s.files)
    (ha : isAllowedUrl j.url = false) :
    dlStep true fetch d s j
      = { seen := jobKey j :: s.seen, files := s.files,
          entries := s.entries, fetches := s.fetches } := by
  unfold dlStep
  simp [hc, hin, ha]

/-- Simulation of a re-run against its first run: starting the same job list
with the first run's final staging contents (and fresh `seen`/manifest)
reproduces the manifest exactly, creates no new file, and fetches only keys
the first run's manifest does not contain. -/
lemma dlRun_sim (fetch : Url → FetchResult) (d : String)
    (hnm : ∀ u, fetch u ≠ FetchResult.failMid) :
    ∀ (jobs : List Job) (s t : DlState),
      t.seen = s.seen → t.entries = s.entries →
      t.files = (dlRun true fetch d jobs s).files →
      (∀ k ∈ keysOf s.entries, k ∈ s.seen) →
      (dlRun true fetch d jobs t).entries = (dlRun true fetch d jobs s).entries
      ∧ (dlRun true fetch d jobs t).files = t.files
      ∧ ∀ p ∈ (dlRun true fetch d jobs t).fetches,
          p ∈ t.fetches ∨ p.1 ∉ keysOf (dlRun true fetch d jobs s).entries := by
  intro jobs
  induction jobs with
  | nil =>
    intro s t hseen hent hfiles hcov
    exact ⟨hent, rfl, fun p hp => .inl hp⟩
  | cons j rest ih =>
    intro s t hseen hent hfiles hcov
    simp only [dlRun_cons] at hfiles ⊢
    by_cases hc : jobKey j ∈ s.seen
    · rw [dlStep_of_seen true fetch d s j hc] at hfiles ⊢
      rw [dlStep_of_seen true fetch d t j (by rw [hseen]; exact hc)]
      exact ih s t hseen hent hfiles hcov
    · have htc : jobKey j ∉ t.seen := by
        rw [hseen]
        exact hc
      have hcov' : ∀ k ∈ keysOf (s.entries ++ [jobEntry d j]), k ∈ jobKey j :: s.seen := by
        intro k hk
        simp only [keysOf, List.map_append, List.map_cons, List.map_nil,
          List.mem_append, List.mem_singleton] at hk
        rcases hk with hk | hk
        · exact List.mem_cons_of_mem _ (hcov k hk)
        · subst hk
          rw [mkey_jobEntry]
          exact List.mem_cons_self _ _
      by_cases hskip : jobName j ∈ s.files
      · have hsEq := dlStep_skip_eq fetch d s j hc hskip
        have hinT : jobName j ∈ t.files := by
          rw [hfiles]
          exact dlRun_files_mono true fetch d rest _
            (dlStep_files_mono true fetch d s j hskip)
        have htEq := dlStep_skip_eq fetch d t j htc hinT
        rw [hsEq] at hfiles ⊢
        rw [htEq]
        obtain ⟨h1, h2, h3⟩ := ih
          { seen := jobKey j :: s.seen, files := s.files,
            entries := s.entries ++ [jobEntry d j], fetches := s.fetches }
          { seen := jobKey j :: t.seen, files := t.files,
            entries := t.entries ++ [jobEntry d j], fetches := t.fetches }
          (by dsimp only; rw [hseen]) (by dsimp only; rw [hent])
          (by dsimp only; exact hfiles) hcov'
        exact ⟨h1, h2, h3⟩
      · by_cases ha : isAllowedUrl j.url = true
        · by_cases hf : fetch j.url = FetchResult.success
          · have hsEq := dlStep_fetchT_eq fetch d s j hc hskip ha hf
            have hinT : jobName j ∈ t.files := by
              rw [hfiles, hsEq]
              exact dlRun_files_mono true fetch d rest _ (List.mem_cons_self _ _)
            have htEq := dlStep_skip_eq fetch d t j htc hinT
            rw [hsEq] at hfiles ⊢
            rw [htEq]
            obtain ⟨h1, h2, h3⟩ := ih
              { seen := jobKey j :: s.seen, files := jobName j :: s.files,
                entries := s.entries ++ [jobEntry d j],
                fetches := s.fetches ++ [(jobKey j, j.url)] }
              { seen := jobKey j :: t.seen, files := t.files,
                entries := t.entries ++ [jobEntry d j], fetches := t.fetches }
              (by dsimp only; rw [hseen]) (by dsimp only; rw [hent])
              (by dsimp only; exact hfiles) hcov'
            exact ⟨h1, h2, h3⟩
          · have hf' : fetch j.url = FetchResult.failEarly := by
              rcases hq : fetch j.url with _ | _ | _
              · exact absurd hq hf
              · rfl
              · exact absurd hq (hnm j.url)
            have hsEq := dlStep_fetchF_eq fetch d s j hc hskip ha hf'
            have hnF1 : jobName j ∉ (dlRun true fetch d rest (dlStep true fetch d s j)).files := by
              rw [hsEq]
              apply dlRun_files_not_added
              · exact hskip
              · intro j' hj' hn
                have hk := jobName_inj hn
                show jobKey j' ∈ jobKey j :: s.seen
                rw [hk]
                exact List.mem_cons_self _ _
            have hinT : jobName j ∉ t.files := by
              rw [hfiles]
              exact hnF1
            have htEq := dlStep_fetchF_eq fetch d t j htc hinT ha hf'
            rw [hsEq] at hfiles ⊢
            rw [htEq]
            have hcovw : ∀ k ∈ keysOf s.entries, k ∈ jobKey j :: s.seen :=
              fun k hk => List.mem_cons_of_mem _ (hcov k hk)
            obtain ⟨h1, h2, h3⟩ := ih
              { seen := jobKey j :: s.seen, files := s.files,
                entries := s.entries, fetches := s.fetches ++ [(jobKey j, j.url)] }
              { seen := jobKey j :: t.seen, files := t.files,
                entries := t.entries, fetches := t.fetches ++ [(jobKey j, j.url)] }
              (by dsimp only; rw [hseen]) (by dsimp only; rw [hent])
              (by dsimp only; exact hfiles) hcovw
            refine ⟨h1, h2, fun p hp => ?_⟩
            rcases h3 p hp with hmem | hnk
            · rcases List.mem_append.mp hmem with hmem | hmem
              · exact .inl hmem
              · refine .inr ?_
                rw [List.mem_singleton.mp hmem]
                apply dlRun_key_not_entered
                · exact List.mem_cons_self _ _
                · show jobKey j ∉ keysOf s.entries
                  exact fun hk => hc (hcov _ hk)
            · exact .inr hnk
        · have ha' : isAllowedUrl j.url = false := by
            simpa using ha
          have hsEq := dlStep_blocked_eq fetch d s j hc hskip ha'
          have hnF1 : jobName j ∉ (dlRun true fetch d rest (dlStep true fetch d s j)).files := by
            rw [hsEq]
            apply dlRun_files_not_added
            · exact hskip
            · intro j' hj' hn
              have hk := jobName_inj hn
              show jobKey j' ∈ jobKey j :: s.seen
              rw [hk]
              exact List.mem_cons_self _ _
          have hinT : jobName j ∉ t.files := by
            rw [hfiles]
            exact hnF1
          have htEq := dlStep_blocked_eq fetch d t j htc hinT ha'
          rw [hsEq] at hfiles ⊢
          rw [htEq]
          have hcovw : ∀ k ∈ keysOf s.entries, k ∈ jobKey j :: s.seen :=
            fun k hk => List.mem_cons_of_mem _ (hcov k hk)
          obtain ⟨h1, h2, h3⟩ := ih
            { seen := jobKey j :: s.seen, files := s.files,
              entries := s.entries, fetches := s.fetches }
            { seen := jobKey j :: t.seen, files := t.files,
              entries := t.entries, fetches := t.fetches }
            (by dsimp only; rw [hseen]) (by dsimp only; rw [hent])
            (by dsimp only; exact hfiles) hcovw
          exact ⟨h1, h2, h3⟩

/-- C3 counterexample: a fetch that dies mid-stream (`failMid` — the
exception hits after `download_one` has opened `dest_path`) returns False
and leaves a partial file at the deterministic path.  The first run records
no entry for `("7", 0)`, yet re-running on the staging directory the first
run left behind finds `7_0.jpg`, takes the skip-existing path and records
the entry — the re-run manifest is not byte-identical to the first. -/
theorem c3_counterexample :
    (downloadAll true (fun _ => FetchResult.failMid) "downloads" [recPbs] []).entries = []
    ∧ (downloadAll true (fun _ => FetchResult.failMid) "downloads" [recPbs] []).files
      = ["7_0.jpg"]
    ∧ keysOf (downloadAll true (fun _ => FetchResult.failMid) "downloads" [recPbs]
        (downloadAll true (fun _ => FetchResult.failMid) "downloads" [recPbs]
          []).files).entries = [("7", 0)] := by
  refine ⟨by decide, by decide, by decide⟩

/-- C3 amended: with skip-existing enabled (the default), a key whose file
already sits at the deterministic staging path is recorded without a
fetch — in particular a fully staged record set downloads nothing at all —
and, provided no fetch of the run fails mid-stream (a mid-stream failure
leaves a partial file at the deterministic path which a re-run records as
completed), re-running acquisition on the same input against the staging
directory the first run produced yields the identical manifest (hence a
byte-identical manifest file), with no network call for any previously
completed `(item_id, media_index)` key. -/
theorem c3_skip_existing_idempotent (fetch : Url → FetchResult) (dir : String)
    (records : List Record) (files0 : List String)
    (hnm : ∀ u, fetch u ≠ FetchResult.failMid) :
    (downloadAll true fetch dir records
        (downloadAll true fetch dir records files0).files).entries
      = (downloadAll true fetch dir records files0).entries
    ∧ (∀ p ∈ (downloadAll true fetch dir records
        (downloadAll true fetch dir records files0).files).fetches,
        p.1 ∉ keysOf (downloadAll true fetch dir records files0).entries)
    ∧ ((∀ j ∈ jobsOf records, jobName j ∈ files0) →
        (downloadAll true fetch dir records files0).fetches = []) := by
  have hsim := dlRun_sim fetch dir hnm (jobsOf records)
    { seen := [], files := files0, entries := [], fetches := [] }
    { seen := [], files := (downloadAll true fetch dir records files0).files,
      entries := [], fetches := [] }
    rfl rfl rfl (by simp [keysOf])
  refine ⟨hsim.1, fun p hp => ?_, fun hall => ?_⟩
  · rcases hsim.2.2 p hp with h | h
    · simp at h
    · exact h
  · exact dlRun_all_staged_no_fetch fetch dir (jobsOf records) _ hall

/-- C3 amended, witness: the always-succeeding network never fails
mid-stream; with `7_0.jpg` already staged the run fetches nothing and the
re-run reproduces the manifest; and under early-failing fetches the second
run's retry of the never-completed key `("7",0)` is for a key outside the
first manifest. -/
theorem c3_skip_existing_idempotent_witness :
    (∀ u : Url, fetch0 u ≠ FetchResult.failMid)
    ∧ (downloadAll true fetch0 "downloads" [recPbs]
        (downloadAll true fetch0 "downloads" [recPbs] ["7_0.jpg"]).files).entries
      = (downloadAll true fetch0 "downloads" [recPbs] ["7_0.jpg"]).entries
    ∧ (downloadAll true fetch0 "downloads" [recPbs] ["7_0.jpg"]).fetches = []
    ∧ (("7", (0 : Int)) ∉
        keysOf (downloadAll true (fun _ => FetchResult.failEarly) "downloads"
          [recPbs] []).entries) := by
  have hnm0 : ∀ u : Url, fetch0 u ≠ FetchResult.failMid := fun u => by simp [fetch0]
  have hnmE : ∀ u : Url, (fun _ : Url => FetchResult.failEarly) u ≠ FetchResult.failMid :=
    fun u => by simp
  refine ⟨hnm0,
    (c3_skip_existing_idempotent fetch0 "downloads" [recPbs] ["7_0.jpg"] hnm0).1,
    (c3_skip_existing_idempotent fetch0 "downloads" [recPbs] ["7_0.jpg"] hnm0).2.2
      (by decide),
    (c3_skip_existing_idempotent (fun _ => FetchResult.failEarly) "downloads"
      [recPbs] [] hnmE).2.1 ((("7", (0 : Int)), urlPbs)) (by decide)⟩

end TwitterLikes
